import Mathlib

/-!
Verification of the TIFF-to-PNG converter (main.cc and its two sibling
revisions). The converter uses the Whole-Raster strategy: it asks libtiff
for one whole-image RGBA decode (TIFFReadRGBAImageOriented with
ORIENTATION_TOPLEFT), writes a PNG header fixed at bit depth 8, color type
RGBA, non-interlaced, then transcodes and writes one row at a time with
png_write_row, and finalizes with png_write_end. External library calls
(libtiff, libpng, fopen, malloc) are modelled by an oracle environment that
says which of them succeed, and the observable behaviour is recorded as a
trace of encoder/decoder events plus lists of acquired and released
resources.
-/

namespace TiffPng

/-- Photometric interpretation tag of the source image. It is part of the
TIFF descriptor but the Whole-Raster pipeline in main.cc never reads it. -/
inductive ColorModel
  | gray
  | rgb
  | otherModel
deriving DecidableEq, Repr

/-- PNG color type as passed to png_set_IHDR. -/
inductive ColorType
  | gray
  | grayAlpha
  | rgb
  | rgba
deriving DecidableEq, Repr

/-- PNG interlace mode as passed to png_set_IHDR. -/
inductive Interlace
  | nonInterlaced
  | adam7
deriving DecidableEq, Repr

/-- Orientation argument of TIFFReadRGBAImageOriented. -/
inductive Orientation
  | topLeft
  | otherOrientation
deriving DecidableEq, Repr

/-- Abstraction of an opened TIFF handle. The fields width, height,
bitsPerSample, samplesPerPixel and colorModel are the descriptor values that
TIFFGetField would report; dimsReadable models whether the two TIFFGetField
calls of main.cc line 16 (IMAGEWIDTH, IMAGELENGTH) succeed. The function
raster gives, per the libtiff contract for TIFFReadRGBAImageOriented with
ORIENTATION_TOPLEFT, the 32-bit packed pixel that the decode deposits at
top-left-origin row-major linear index i. -/
structure TiffImage where
  width : Nat
  height : Nat
  bitsPerSample : Nat
  samplesPerPixel : Nat
  colorModel : ColorModel
  dimsReadable : Bool
  raster : Nat → Nat

/-- Observable calls the pipeline makes on the decoder, the filesystem and
the encoder. -/
inductive Event
  | decodeCall (npixels : Nat) (orient : Orientation)
  | openOutput (name : List Char)
  | writeHeader (w h bitDepth : Nat) (ct : ColorType) (il : Interlace)
  | writeRow (y : Nat) (bytes : List Nat)
  | finalize
deriving DecidableEq, Repr

/-- The five resources save_tiff_as_png acquires: the raster buffer
(_TIFFmalloc), the output FILE (fopen), the png write struct, the png info
struct, and the single row buffer (malloc). -/
inductive Res
  | raster
  | file
  | pngStruct
  | pngInfo
  | rowBuf
deriving DecidableEq, Repr, Fintype

/-- Oracle for the fallible external calls, in the order main.cc makes
them. pngSetupOk models the setjmp site at main.cc line 55 (a libpng
internal error during png_init_io / png_write_info longjmps there);
pngRowFailAt models a libpng internal error longjmping out of the
png_write_row call for that row index. -/
structure Env where
  rasterAllocOk : Bool
  decodeOk : Bool
  fopenOk : Bool
  pngCreateWriteOk : Bool
  pngCreateInfoOk : Bool
  pngSetupOk : Bool
  rowAllocOk : Bool
  pngRowFailAt : Option Nat

/-- Outcome of one run of save_tiff_as_png: the boolean the function
returns, the trace of external events, and the resources acquired and
released along the way. -/
structure RunResult where
  ok : Bool
  events : List Event
  acquired : List Res
  released : List Res
deriving DecidableEq, Repr

/-- Transcoding of one 32-bit packed pixel into the four output bytes, from
main.cc lines 78-81: row[4x+0] = (px >> 16) & 0xFF (R), row[4x+1] =
(px >> 8) & 0xFF (G), row[4x+2] = px & 0xFF (B), row[4x+3] =
(px >> 24) & 0xFF (A). -/
def transcodePixel (px : Nat) : List Nat :=
  [(px >>> 16) &&& 0xFF, (px >>> 8) &&& 0xFF, px &&& 0xFF, (px >>> 24) &&& 0xFF]

/-- The bytes of output row y: the inner loop of main.cc lines 73-82 reads
raster[y*width + x] for x = 0..width-1 and stores the four transcoded bytes
at row[4x..4x+3]. -/
def rowBytes (t : TiffImage) (y : Nat) : List Nat :=
  (((List.range t.width).map (fun x => transcodePixel (t.raster (y * t.width + x))))).flatten

/-- The cleanup of the catch block, main.cc lines 100-106: free(row) if row
is non-null; png_destroy_write_struct if png_ptr is non-null (tearing down
info_ptr with it when that is non-null); fclose if fp is non-null;
_TIFFfree if raster is non-null. Each argument says whether the
corresponding local pointer is non-null at the throw site. -/
def catchCleanup (row png info fp raster : Bool) : List Res :=
  (if row then [Res.rowBuf] else []) ++
  (if png then Res.pngStruct :: (if info then [Res.pngInfo] else []) else []) ++
  (if fp then [Res.file] else []) ++
  (if raster then [Res.raster] else [])

/-- The normal-path tail of save_tiff_as_png, main.cc lines 71-95: the row
loop writes rows 0..height-1, png_write_end finalizes, then lines 90-93
free the row buffer, destroy the png structs, close the file and free the
raster, and the function returns true. -/
def successRun (t : TiffImage) (fname : List Char) : RunResult :=
  ⟨true,
    [Event.decodeCall (t.width * t.height) Orientation.topLeft,
     Event.openOutput fname,
     Event.writeHeader t.width t.height 8 ColorType.rgba Interlace.nonInterlaced] ++
    (List.range t.height).map (fun y => Event.writeRow y (rowBytes t y)) ++
    [Event.finalize],
    [Res.raster, Res.file, Res.pngStruct, Res.pngInfo, Res.rowBuf],
    [Res.rowBuf, Res.pngStruct, Res.pngInfo, Res.file, Res.raster]⟩

/-- Shallow embedding of save_tiff_as_png (main.cc lines 9-110). Each
if-branch mirrors one failure site of the source, with the events emitted
up to that point, the resources acquired, and the catch-block cleanup run
with exactly the pointers that are non-null there. -/
def save_tiff_as_png (tif : Option TiffImage) (png_filename : Option (List Char))
    (env : Env) : RunResult :=
  match tif, png_filename with
  | none, _ => ⟨false, [], [], []⟩
  | some _, none => ⟨false, [], [], []⟩
  | some t, some fname =>
    if t.dimsReadable = false then ⟨false, [], [], []⟩
    else if env.rasterAllocOk = false then
      ⟨false, [], [], catchCleanup false false false false false⟩
    else if env.decodeOk = false then
      ⟨false, [Event.decodeCall (t.width * t.height) Orientation.topLeft],
        [Res.raster], catchCleanup false false false false true⟩
    else if env.fopenOk = false then
      ⟨false, [Event.decodeCall (t.width * t.height) Orientation.topLeft],
        [Res.raster], catchCleanup false false false false true⟩
    else if env.pngCreateWriteOk = false then
      ⟨false, [Event.decodeCall (t.width * t.height) Orientation.topLeft,
        Event.openOutput fname],
        [Res.raster, Res.file], catchCleanup false false false true true⟩
    else if env.pngCreateInfoOk = false then
      ⟨false, [Event.decodeCall (t.width * t.height) Orientation.topLeft,
        Event.openOutput fname],
        [Res.raster, Res.file, Res.pngStruct], catchCleanup false true false true true⟩
    else if env.pngSetupOk = false then
      ⟨false, [Event.decodeCall (t.width * t.height) Orientation.topLeft,
        Event.openOutput fname],
        [Res.raster, Res.file, Res.pngStruct, Res.pngInfo],
        catchCleanup false true true true true⟩
    else if env.rowAllocOk = false then
      ⟨false, [Event.decodeCall (t.width * t.height) Orientation.topLeft,
        Event.openOutput fname,
        Event.writeHeader t.width t.height 8 ColorType.rgba Interlace.nonInterlaced],
        [Res.raster, Res.file, Res.pngStruct, Res.pngInfo],
        catchCleanup false true true true true⟩
    else
      match env.pngRowFailAt with
      | some k =>
        if k < t.height then
          ⟨false,
            [Event.decodeCall (t.width * t.height) Orientation.topLeft,
             Event.openOutput fname,
             Event.writeHeader t.width t.height 8 ColorType.rgba Interlace.nonInterlaced] ++
            (List.range k).map (fun y => Event.writeRow y (rowBytes t y)),
            [Res.raster, Res.file, Res.pngStruct, Res.pngInfo, Res.rowBuf],
            catchCleanup true true true true true⟩
        else successRun t fname
      | none => successRun t fname

/-- Index of the last occurrence of c in the list, as
std::string::find_last_of(c) computes it (main.cc line 134). -/
def find_last_of (c : Char) : List Char → Option Nat
  | [] => none
  | x :: xs =>
    match find_last_of c xs with
    | some i => some (i + 1)
    | none => if x = c then some 0 else none

/-- Output-path derivation of main.cc lines 133-139: if the input path
contains a dot, keep the part before the last dot and append ".png";
otherwise append ".png" to the whole path. -/
def derive_output (s : List Char) : List Char :=
  match find_last_of '.' s with
  | some i => s.take i ++ ".png".toList
  | none => s ++ ".png".toList

/-- Concrete 1-by-1 test image whose single packed pixel is 0x80304050. -/
def imgW : TiffImage :=
  ⟨1, 1, 8, 4, ColorModel.rgb, true, fun _ => 0x80304050⟩

/-- Concrete 1-by-1 test image with the same pixel data as imgW but a
different descriptor (16-bit single-sample gray). -/
def imgW2 : TiffImage :=
  ⟨1, 1, 16, 1, ColorModel.gray, true, fun _ => 0x80304050⟩

/-- Environment in which every external call succeeds. -/
def envAllOk : Env :=
  ⟨true, true, true, true, true, true, true, none⟩

/-- Environment in which the raster allocation fails. -/
def envFailAlloc : Env :=
  ⟨false, true, true, true, true, true, true, none⟩

lemma and_255_eq_mod (x : Nat) : x &&& 255 = x % 256 := by
  have h := Nat.and_pow_two_sub_one_eq_mod x 8
  norm_num at h
  exact h

lemma flatten_map_extract (f : Nat → List Nat) (h4 : ∀ i, (f i).length = 4) :
    ∀ (n s x : Nat), x < n →
      ((((List.range' s n).map f).flatten).drop (4 * x)).take 4 = f (s + x) := by
  intro n
  induction n with
  | zero => intro s x hx; omega
  | succ m ih =>
    intro s x hx
    rw [List.range'_succ]
    simp only [List.map_cons, List.flatten_cons]
    cases x with
    | zero =>
      simp only [Nat.mul_zero, List.drop_zero, Nat.add_zero]
      exact List.take_left' (h4 s)
    | succ x =>
      have hlen : 4 * (x + 1) = (f s).length + 4 * x := by rw [h4 s]; omega
      rw [hlen, List.drop_append]
      have h := ih (s + 1) x (by omega)
      rw [h]
      congr 1
      omega

/-- C1: for every 32-bit packed source pixel, the Whole-Raster transcoder
writes exactly four consecutive output bytes (at offset 4x of row y for the
pixel at column x) in the order red, green, blue, alpha, with
red = (px >> 16) & 0xFF, green = (px >> 8) & 0xFF, blue = px & 0xFF,
alpha = (px >> 24) & 0xFF; for px = 0x80304050 the emitted bytes are
0x30, 0x40, 0x50, 0x80. -/
theorem C1_pixel_transcode_order (t : TiffImage) (y x px : Nat) (hx : x < t.width) :
    transcodePixel px =
      [(px >>> 16) % 256, (px >>> 8) % 256, px % 256, (px >>> 24) % 256]
    ∧ ((rowBytes t y).drop (4 * x)).take 4 = transcodePixel (t.raster (y * t.width + x))
    ∧ transcodePixel 0x80304050 = [0x30, 0x40, 0x50, 0x80] := by
  refine ⟨by simp [transcodePixel, and_255_eq_mod], ?_, by decide⟩
  have h := flatten_map_extract (fun x => transcodePixel (t.raster (y * t.width + x)))
    (fun i => rfl) t.width 0 x hx
  rw [rowBytes, List.range_eq_range']
  simpa using h

theorem C1_pixel_transcode_order_witness :
    (0 : Nat) < imgW.width ∧
    (transcodePixel 0x80304050 =
      [(0x80304050 >>> 16) % 256, (0x80304050 >>> 8) % 256,
       0x80304050 % 256, (0x80304050 >>> 24) % 256]
    ∧ ((rowBytes imgW 0).drop (4 * 0)).take 4 = transcodePixel (imgW.raster (0 * imgW.width + 0))
    ∧ transcodePixel 0x80304050 = [0x30, 0x40, 0x50, 0x80]) :=
  ⟨by decide, C1_pixel_transcode_order imgW 0 0 0x80304050 (by decide)⟩

lemma find_last_of_eq_none (c : Char) (s : List Char)
    (h : find_last_of c s = none) : c ∉ s := by
  induction s with
  | nil => simp
  | cons x xs ih =>
    simp only [find_last_of] at h
    cases hfx : find_last_of c xs with
    | some i => simp [hfx] at h
    | none =>
      rw [hfx] at h
      by_cases hxc : x = c
      · simp [hxc] at h
      · intro hmem
        rcases List.mem_cons.mp hmem with h1 | h2
        · exact hxc h1.symm
        · exact ih hfx h2

lemma find_last_of_eq_some (c : Char) (s : List Char) (i : Nat)
    (h : find_last_of c s = some i) :
    s = s.take i ++ c :: s.drop (i + 1) ∧ c ∉ s.drop (i + 1) := by
  induction s generalizing i with
  | nil => simp [find_last_of] at h
  | cons x xs ih =>
    simp only [find_last_of] at h
    cases hfx : find_last_of c xs with
    | some j =>
      rw [hfx] at h
      have hij : i = j + 1 := by
        cases h; rfl
      subst hij
      obtain ⟨h1, h2⟩ := ih j hfx
      constructor
      · rw [List.take_succ_cons, List.drop_succ_cons]
        conv_lhs => rw [h1]
        simp
      · rw [List.drop_succ_cons]
        exact h2
    | none =>
      rw [hfx] at h
      by_cases hxc : x = c
      · have hi0 : i = 0 := by
          simp [hxc] at h
          omega
        subst hi0
        refine ⟨by simp [hxc], ?_⟩
        simpa using find_last_of_eq_none c xs hfx
      · simp [hxc] at h

/-- C7: the output path is derived by replacing the final dot-delimited
extension of the path with ".png", or by appending ".png" when the path
contains no dot. -/
theorem C7_output_path (s : List Char) :
    (('.' ∉ s) → derive_output s = s ++ ".png".toList)
    ∧ (('.' ∈ s) → ∃ base ext : List Char,
        s = base ++ '.' :: ext ∧ '.' ∉ ext ∧
        derive_output s = base ++ ".png".toList) := by
  cases hf : find_last_of '.' s with
  | none =>
    have hnot := find_last_of_eq_none '.' s hf
    exact ⟨fun _ => by simp [derive_output, hf], fun hmem => absurd hmem hnot⟩
  | some i =>
    obtain ⟨h1, h2⟩ := find_last_of_eq_some '.' s i hf
    have hmem : '.' ∈ s := by rw [h1]; simp
    refine ⟨fun hno => absurd hmem hno,
      fun _ => ⟨s.take i, s.drop (i + 1), h1, h2, ?_⟩⟩
    simp [derive_output, hf]

theorem C7_output_path_witness :
    ∃ base ext : List Char,
      "photo.tif".toList = base ++ '.' :: ext ∧ '.' ∉ ext ∧
      derive_output ("photo.tif".toList) = base ++ ".png".toList :=
  (C7_output_path ("photo.tif".toList)).2 (by decide)

/-- C9: the conversion is deterministic; two runs on equal inputs produce
equal outcomes (equal event traces, hence byte-identical output). The
embedded pipeline consults no clock, randomness or other hidden input:
its result is a function of the image, the output name and the
environment alone. -/
theorem C9_deterministic (t1 t2 : Option TiffImage) (f1 f2 : Option (List Char))
    (e1 e2 : Env) (ht : t1 = t2) (hf : f1 = f2) (he : e1 = e2) :
    save_tiff_as_png t1 f1 e1 = save_tiff_as_png t2 f2 e2 := by
  subst ht; subst hf; subst he; rfl

theorem C9_deterministic_witness :
    save_tiff_as_png (some imgW) (some "a.png".toList) envAllOk =
      save_tiff_as_png (some imgW) (some "a.png".toList) envAllOk :=
  C9_deterministic (some imgW) (some imgW) (some "a.png".toList)
    (some "a.png".toList) envAllOk envAllOk rfl rfl rfl

/-- C10: with a null source handle, a null output filename, or unreadable
dimensions, save_tiff_as_png fails before acquiring anything: no events
(so the output file is never opened or created), no resource acquired. -/
theorem C10_early_failure_acquires_nothing (tif : Option TiffImage)
    (fname : Option (List Char)) (env : Env)
    (h : tif = none ∨ fname = none ∨ ∀ t, tif = some t → t.dimsReadable = false) :
    save_tiff_as_png tif fname env = ⟨false, [], [], []⟩ := by
  rcases h with h | h | h
  · subst h; rfl
  · subst h; cases tif <;> rfl
  · cases tif with
    | none => rfl
    | some t =>
      cases fname with
      | none => rfl
      | some f => simp [save_tiff_as_png, h t rfl]

theorem C10_early_failure_acquires_nothing_witness :
    save_tiff_as_png none (some "x.png".toList) envAllOk = ⟨false, [], [], []⟩ :=
  C10_early_failure_acquires_nothing none (some "x.png".toList) envAllOk (Or.inl rfl)

set_option maxHeartbeats 1600000 in
lemma save_of_ok (t : TiffImage) (f : List Char) (env : Env)
    (hok : (save_tiff_as_png (some t) (some f) env).ok = true) :
    save_tiff_as_png (some t) (some f) env = successRun t f := by
  cases hrf : env.pngRowFailAt with
  | none =>
    simp only [save_tiff_as_png, hrf] at hok ⊢
    split_ifs at hok ⊢ <;> first | rfl | simp at hok
  | some k =>
    simp only [save_tiff_as_png, hrf] at hok ⊢
    split_ifs at hok ⊢ <;> first | rfl | simp at hok

set_option maxHeartbeats 1600000 in
lemma flags_of_ok (t : TiffImage) (f : List Char) (env : Env)
    (hok : (save_tiff_as_png (some t) (some f) env).ok = true) :
    t.dimsReadable = true ∧ env.rasterAllocOk = true ∧ env.decodeOk = true ∧
    env.fopenOk = true ∧ env.pngCreateWriteOk = true ∧ env.pngCreateInfoOk = true ∧
    env.pngSetupOk = true ∧ env.rowAllocOk = true ∧
    (∀ k, env.pngRowFailAt = some k → t.height ≤ k) := by
  cases hrf : env.pngRowFailAt with
  | none =>
    simp only [save_tiff_as_png, hrf] at hok
    split_ifs at hok <;> simp_all
  | some k =>
    simp only [save_tiff_as_png, hrf] at hok
    split_ifs at hok <;> simp_all <;> omega

set_option maxHeartbeats 1600000 in
lemma cleanup_complete (tif : Option TiffImage) (fname : Option (List Char))
    (env : Env) (r : Res) :
    r ∈ (save_tiff_as_png tif fname env).acquired ↔
      r ∈ (save_tiff_as_png tif fname env).released := by
  cases tif with
  | none => simp [save_tiff_as_png]
  | some t =>
    cases fname with
    | none => simp [save_tiff_as_png]
    | some f =>
      cases hrf : env.pngRowFailAt with
      | none =>
        simp only [save_tiff_as_png, hrf]
        split_ifs <;> cases r <;> simp [successRun, catchCleanup]
      | some k =>
        simp only [save_tiff_as_png, hrf]
        split_ifs <;> cases r <;> simp [successRun, catchCleanup]

/-- Which of the fallible steps of save_tiff_as_png past the argument and
descriptor checks can fail: raster allocation, whole-image decode, output
open, the two encoder-structure creations, the encoder internal error
(setjmp), row-buffer allocation, or an encoder internal error while
writing row k. -/
def someStepFails (t : TiffImage) (env : Env) : Prop :=
  env.rasterAllocOk = false ∨ env.decodeOk = false ∨ env.fopenOk = false ∨
  env.pngCreateWriteOk = false ∨ env.pngCreateInfoOk = false ∨
  env.pngSetupOk = false ∨ env.rowAllocOk = false ∨
  (∃ k, env.pngRowFailAt = some k ∧ k < t.height)

/-- C4: when any step of save_tiff_as_png fails, the function returns the
single error outcome false (never success), and every resource acquired up
to the failure is released by the catch-block cleanup. -/
theorem C4_failure_total_cleanup (t : TiffImage) (f : List Char) (env : Env)
    (hf : someStepFails t env) :
    (save_tiff_as_png (some t) (some f) env).ok = false
    ∧ ∀ r : Res, r ∈ (save_tiff_as_png (some t) (some f) env).acquired ↔
        r ∈ (save_tiff_as_png (some t) (some f) env).released := by
  refine ⟨?_, fun r => cleanup_complete (some t) (some f) env r⟩
  cases hok : (save_tiff_as_png (some t) (some f) env).ok with
  | false => rfl
  | true =>
    obtain ⟨hd9, h1, h2, h3, h4, h5, h6, h7, h8⟩ := flags_of_ok t f env hok
    rcases hf with h | h | h | h | h | h | h | ⟨k, hk1, hk2⟩
    · simp [h] at h1
    · simp [h] at h2
    · simp [h] at h3
    · simp [h] at h4
    · simp [h] at h5
    · simp [h] at h6
    · simp [h] at h7
    · exact absurd hk2 (Nat.not_lt.mpr (h8 k hk1))

theorem C4_failure_total_cleanup_witness :
    (save_tiff_as_png (some imgW) (some "a.png".toList) envFailAlloc).ok = false ∧
    (Res.raster ∈ (save_tiff_as_png (some imgW) (some "a.png".toList) envFailAlloc).acquired ↔
      Res.raster ∈ (save_tiff_as_png (some imgW) (some "a.png".toList) envFailAlloc).released) :=
  ⟨(C4_failure_total_cleanup imgW "a.png".toList envFailAlloc (Or.inl rfl)).1,
   (C4_failure_total_cleanup imgW "a.png".toList envFailAlloc (Or.inl rfl)).2 Res.raster⟩

/-- The row index carried by a writeRow event, if any. -/
def rowIndices (es : List Event) : List Nat :=
  es.filterMap (fun e => match e with
    | Event.writeRow y _ => some y
    | _ => none)

/-- Whether an event is the encoder finalize call (png_write_end). -/
def isFinalize : Event → Bool
  | Event.finalize => true
  | _ => false

/-- Whether an event is the whole-image decode call. -/
def isDecode : Event → Bool
  | Event.decodeCall _ _ => true
  | _ => false

lemma rowIndices_append (a b : List Event) :
    rowIndices (a ++ b) = rowIndices a ++ rowIndices b :=
  List.filterMap_append a b _

lemma rowIndices_map_range (t : TiffImage) (n : Nat) :
    rowIndices ((List.range n).map (fun y => Event.writeRow y (rowBytes t y))) =
      List.range n := by
  induction n with
  | zero => rfl
  | succ m ih =>
    rw [List.range_succ, List.map_append, rowIndices_append, ih]
    rfl

lemma countP_writeRows_eq_zero (t : TiffImage) (p : Event → Bool)
    (hp : ∀ y b, p (Event.writeRow y b) = false) (n : Nat) :
    ((List.range n).map (fun y => Event.writeRow y (rowBytes t y))).countP p = 0 := by
  induction n with
  | zero => rfl
  | succ m ih =>
    rw [List.range_succ, List.map_append, List.countP_append, ih]
    simp [List.countP_cons, hp]

/-- C3: a successful run writes exactly the rows 0, 1, ..., height-1 in
that order with no reordering or skipping, and calls the encoder finalize
exactly once, as the last encoder call, after all rows. -/
theorem C3_row_order_then_finalize (t : TiffImage) (fname : Option (List Char))
    (env : Env) (hok : (save_tiff_as_png (some t) fname env).ok = true) :
    rowIndices (save_tiff_as_png (some t) fname env).events = List.range t.height
    ∧ (save_tiff_as_png (some t) fname env).events.countP isFinalize = 1
    ∧ (save_tiff_as_png (some t) fname env).events.getLast? = some Event.finalize := by
  cases fname with
  | none => simp [save_tiff_as_png] at hok
  | some f =>
    rw [save_of_ok t f env hok]
    unfold successRun
    refine ⟨?_, ?_, ?_⟩
    · rw [rowIndices_append, rowIndices_append, rowIndices_map_range]
      simp [rowIndices]
    · rw [List.countP_append, List.countP_append,
        countP_writeRows_eq_zero t isFinalize (fun _ _ => rfl)]
      rfl
    · exact List.getLast?_concat _

theorem C3_row_order_then_finalize_witness :
    (save_tiff_as_png (some imgW) (some "a.png".toList) envAllOk).ok = true ∧
    (rowIndices (save_tiff_as_png (some imgW) (some "a.png".toList) envAllOk).events =
        List.range imgW.height
      ∧ (save_tiff_as_png (some imgW) (some "a.png".toList) envAllOk).events.countP isFinalize = 1
      ∧ (save_tiff_as_png (some imgW) (some "a.png".toList) envAllOk).events.getLast? =
          some Event.finalize) :=
  ⟨by decide,
   C3_row_order_then_finalize imgW (some "a.png".toList) envAllOk (by decide)⟩

/-- Row y of the raster as the slice raster[y*width .. y*width+width]. -/
def rasterSlice (t : TiffImage) (y : Nat) : List Nat :=
  (List.range t.width).map (fun x => t.raster (y * t.width + x))

lemma rowBytes_eq_slice (t : TiffImage) (y : Nat) :
    rowBytes t y = ((rasterSlice t y).map transcodePixel).flatten := by
  rw [rowBytes, rasterSlice, List.map_map]
  rfl

/-- C6: a successful run issues exactly one decode call, for a buffer of
width*height packed pixels in top-left orientation, and every row y in
[0, height) that it writes is the transcoding of the raster slice
raster[y*width .. y*width+width]; no further decode calls occur. -/
theorem C6_single_decode_and_slicing (t : TiffImage) (fname : Option (List Char))
    (env : Env) (hok : (save_tiff_as_png (some t) fname env).ok = true) :
    (save_tiff_as_png (some t) fname env).events.countP isDecode = 1
    ∧ Event.decodeCall (t.width * t.height) Orientation.topLeft ∈
        (save_tiff_as_png (some t) fname env).events
    ∧ ∀ y, y < t.height →
        Event.writeRow y (((rasterSlice t y).map transcodePixel).flatten) ∈
          (save_tiff_as_png (some t) fname env).events := by
  cases fname with
  | none => simp [save_tiff_as_png] at hok
  | some f =>
    rw [save_of_ok t f env hok]
    unfold successRun
    refine ⟨?_, ?_, ?_⟩
    · rw [List.countP_append, List.countP_append,
        countP_writeRows_eq_zero t isDecode (fun _ _ => rfl)]
      rfl
    · simp
    · intro y hy
      rw [← rowBytes_eq_slice]
      refine List.mem_append_left _ (List.mem_append_right _ ?_)
      exact List.mem_map.mpr ⟨y, List.mem_range.mpr hy, rfl⟩

theorem C6_single_decode_and_slicing_witness :
    (save_tiff_as_png (some imgW) (some "a.png".toList) envAllOk).ok = true ∧
    (save_tiff_as_png (some imgW) (some "a.png".toList) envAllOk).events.countP isDecode = 1 ∧
    Event.decodeCall (imgW.width * imgW.height) Orientation.topLeft ∈
      (save_tiff_as_png (some imgW) (some "a.png".toList) envAllOk).events ∧
    Event.writeRow 0 (((rasterSlice imgW 0).map transcodePixel).flatten) ∈
      (save_tiff_as_png (some imgW) (some "a.png".toList) envAllOk).events :=
  ⟨by decide,
   (C6_single_decode_and_slicing imgW (some "a.png".toList) envAllOk (by decide)).1,
   (C6_single_decode_and_slicing imgW (some "a.png".toList) envAllOk (by decide)).2.1,
   (C6_single_decode_and_slicing imgW (some "a.png".toList) envAllOk (by decide)).2.2 0 (by decide)⟩

set_option maxHeartbeats 1600000 in
lemma writeHeader_mem_save (tif : Option TiffImage) (fname : Option (List Char))
    (env : Env) (w h bd : Nat) (ct : ColorType) (il : Interlace)
    (hmem : Event.writeHeader w h bd ct il ∈ (save_tiff_as_png tif fname env).events) :
    bd = 8 ∧ ct = ColorType.rgba ∧ il = Interlace.nonInterlaced := by
  cases tif with
  | none => simp [save_tiff_as_png] at hmem
  | some t =>
    cases fname with
    | none => simp [save_tiff_as_png] at hmem
    | some f =>
      cases hrf : env.pngRowFailAt with
      | none =>
        simp only [save_tiff_as_png, hrf] at hmem
        split_ifs at hmem <;> simp_all [successRun]
      | some k =>
        simp only [save_tiff_as_png, hrf] at hmem
        split_ifs at hmem <;> simp_all [successRun]

/-- C2: in Whole-Raster mode the encoder header is always written with bit
depth 8, color type RGBA and non-interlaced, for every source image; the
run is entirely independent of the descriptor fields (bit depth, sample
count, color model) that a target-layout selector would consult, so no
such selector is consulted. -/
theorem C2_whole_raster_header (t t2 : TiffImage) (fname : Option (List Char))
    (env : Env) (hw : t.width = t2.width) (hh : t.height = t2.height)
    (hr : t.raster = t2.raster) (hd : t.dimsReadable = t2.dimsReadable) :
    save_tiff_as_png (some t) fname env = save_tiff_as_png (some t2) fname env
    ∧ ∀ w h bd ct il,
        Event.writeHeader w h bd ct il ∈ (save_tiff_as_png (some t) fname env).events →
        bd = 8 ∧ ct = ColorType.rgba ∧ il = Interlace.nonInterlaced := by
  constructor
  · obtain ⟨w1, h1, b1, s1, c1, d1, r1⟩ := t
    obtain ⟨w2, h2, b2, s2, c2, d2, r2⟩ := t2
    simp only at hw hh hr hd
    subst hw; subst hh; subst hr; subst hd
    cases fname with
    | none => rfl
    | some f => simp only [save_tiff_as_png, successRun, rowBytes]
  · intro w h bd ct il hmem
    exact writeHeader_mem_save (some t) fname env w h bd ct il hmem

theorem C2_whole_raster_header_witness :
    save_tiff_as_png (some imgW) (some "a.png".toList) envAllOk =
      save_tiff_as_png (some imgW2) (some "a.png".toList) envAllOk ∧
    ((8 : Nat) = 8 ∧ ColorType.rgba = ColorType.rgba ∧
      Interlace.nonInterlaced = Interlace.nonInterlaced) :=
  ⟨(C2_whole_raster_header imgW imgW2 (some "a.png".toList) envAllOk rfl rfl rfl rfl).1,
   (C2_whole_raster_header imgW imgW2 (some "a.png".toList) envAllOk rfl rfl rfl rfl).2
     1 1 8 ColorType.rgba Interlace.nonInterlaced (by decide)⟩

/-- Byte order of the host machine. -/
inductive Endianness
  | little
  | big
deriving DecidableEq, Repr

/-- Modelled from the spec: the Native-Scanline strategy of spec sections
4.3 and 4.4 is described by the spec but absent from src/, which contains
only the Whole-Raster pipeline. hostBytes e v gives the two bytes of the
16-bit sample value v as they sit in host memory under host endianness e. -/
def hostBytes (e : Endianness) (v : Nat) : List Nat :=
  match e with
  | Endianness.little => [v &&& 0xFF, (v >>> 8) &&& 0xFF]
  | Endianness.big => [(v >>> 8) &&& 0xFF, v &&& 0xFF]

/-- Modelled from the spec: the 16-bit value that a 2-byte in-memory sample
denotes under host endianness e. -/
def sampleOfHostBytes (e : Endianness) (b0 b1 : Nat) : Nat :=
  match e with
  | Endianness.little => b0 + 256 * b1
  | Endianness.big => b1 + 256 * b0

/-- Modelled from the spec: the Native-Scanline transcoder's 16-bit
endianness correction (spec section 4.4): each 2-byte sample of the row is
reinterpreted from the host byte order into big-endian byte order before
being handed to the encoder; no other transform occurs. -/
def nativeRow16 (e : Endianness) : List Nat → List Nat
  | b0 :: b1 :: rest =>
    ((sampleOfHostBytes e b0 b1 >>> 8) &&& 0xFF) ::
      (sampleOfHostBytes e b0 b1 &&& 0xFF) :: nativeRow16 e rest
  | l => l

/-- Modelled from the spec: a row of 16-bit samples as it sits in host
memory, two host-order bytes per sample. -/
def hostRow (e : Endianness) (samples : List Nat) : List Nat :=
  (samples.map (hostBytes e)).flatten

/-- Modelled from the spec: the big-endian byte sequence of a row of
16-bit samples, the layout the encoder requires. -/
def bigEndianRow (samples : List Nat) : List Nat :=
  (samples.map (fun v => [(v >>> 8) &&& 0xFF, v &&& 0xFF])).flatten

lemma shiftRight8_eq_div (v : Nat) : v >>> 8 = v / 256 := by
  rw [Nat.shiftRight_eq_div_pow]

lemma sample_roundtrip (e : Endianness) (v : Nat) (hv : v < 65536) :
    ∃ b0 b1, hostBytes e v = [b0, b1] ∧ sampleOfHostBytes e b0 b1 = v := by
  cases e
  · refine ⟨_, _, rfl, ?_⟩
    simp only [sampleOfHostBytes, and_255_eq_mod, shiftRight8_eq_div]
    omega
  · refine ⟨_, _, rfl, ?_⟩
    simp only [sampleOfHostBytes, and_255_eq_mod, shiftRight8_eq_div]
    omega

lemma nativeRow16_hostRow (e : Endianness) (samples : List Nat)
    (hv : ∀ v ∈ samples, v < 65536) :
    nativeRow16 e (hostRow e samples) = bigEndianRow samples := by
  induction samples with
  | nil => rfl
  | cons v vs ih =>
    obtain ⟨b0, b1, hb, hs⟩ := sample_roundtrip e v (hv v (List.mem_cons_self v vs))
    rw [hostRow, List.map_cons, List.flatten_cons, hb]
    show nativeRow16 e (b0 :: b1 :: hostRow e vs) = bigEndianRow (v :: vs)
    rw [nativeRow16, hs, ih (fun u hu => hv u (List.mem_cons_of_mem v hu))]
    rfl

/-- C5: for a 1-by-1 16-bit gray image with sample value 0x1234 in host
order, the Native-Scanline transcoder hands the encoder the bytes 0x12 then
0x34, on every host endianness; in general, every 16-bit sample of every
row is byte-swapped from host order to big-endian. Modelled from the spec
(sections 4.3 and 4.4): the Native-Scanline strategy is absent from src/. -/
theorem C5_native_scanline_big_endian (e : Endianness) (samples : List Nat)
    (hv : ∀ v ∈ samples, v < 65536) :
    nativeRow16 e (hostRow e samples) = bigEndianRow samples
    ∧ nativeRow16 e (hostRow e [0x1234]) = [0x12, 0x34] := by
  refine ⟨nativeRow16_hostRow e samples hv, ?_⟩
  rw [nativeRow16_hostRow e [0x1234] (by decide)]
  decide

theorem C5_native_scanline_big_endian_witness :
    nativeRow16 Endianness.little (hostRow Endianness.little [0x1234]) =
      bigEndianRow [0x1234]
    ∧ nativeRow16 Endianness.little (hostRow Endianness.little [0x1234]) =
      [0x12, 0x34] :=
  C5_native_scanline_big_endian Endianness.little [0x1234] (by decide)

/-- One printed status line of main. -/
inductive Msg
  | usage
  | openError
  | convertFailed (out : List Char)
  | saved (out : List Char)
deriving DecidableEq, Repr

/-- Whether a printed line reports a failure rather than success. -/
def isFailureMsg : Msg → Bool
  | Msg.saved _ => false
  | _ => true

/-- Oracle for the files main touches: what TIFFOpen returns for each
path, and how the external calls behave while converting that path. -/
structure World where
  openTiff : List Char → Option TiffImage
  envFor : List Char → Env

/-- Shallow embedding of main (main.cc lines 112-152). argv includes the
program name at index 0. Returns the process exit code and the printed
status lines. Note the source reads only argv[1]. -/
def main (argv : List (List Char)) (w : World) : Nat × List Msg :=
  if argv.length < 2 then (1, [Msg.usage])
  else
    let tiff_file := argv.getD 1 []
    match w.openTiff tiff_file with
    | none => (1, [Msg.openError])
    | some t =>
      let output_file := derive_output tiff_file
      if (save_tiff_as_png (some t) (some output_file) (w.envFor tiff_file)).ok then
        (0, [Msg.saved output_file])
      else
        (1, [Msg.convertFailed output_file])

/-- Whether converting input path p succeeds in world w, mirroring the
open-then-convert sequence of main. -/
def inputConverts (w : World) (p : List Char) : Bool :=
  match w.openTiff p with
  | none => false
  | some t => (save_tiff_as_png (some t) (some (derive_output p)) (w.envFor p)).ok

/-- World in which bad.tif fails to open and every other path converts. -/
def worldCE : World :=
  ⟨fun p => if p = "bad.tif".toList then none else some imgW, fun _ => envAllOk⟩

/-- Argument vector with two inputs: a good one and a bad one. -/
def argvCE : List (List Char) :=
  ["prog".toList, "good.tif".toList, "bad.tif".toList]

/-- C8 counterexample: with inputs good.tif (which converts) and bad.tif
(which does not open), the exit code is 0 even though not every given
input converted successfully, refuting the claimed equivalence: main only
ever converts argv[1] and ignores the remaining arguments. -/
theorem C8_counterexample_first_input_only :
    ¬ (((main argvCE worldCE).1 = 0) ↔
        ∀ p ∈ argvCE.drop 1, inputConverts worldCE p = true) := by
  decide

/-- C8 amended: the command surface converts only the first positional
argument and ignores any further ones; the exit code is 0 iff an input was
given and that first input converted successfully, else 1; exactly one
status line is printed, and it is a failure line exactly when the exit
code is nonzero. -/
theorem C8_exit_code_first_input (argv : List (List Char)) (w : World) :
    ((main argv w).1 = 0 ↔ 2 ≤ argv.length ∧ inputConverts w (argv.getD 1 []) = true)
    ∧ ((main argv w).1 = 0 ∨ (main argv w).1 = 1)
    ∧ (main argv w).2.countP isFailureMsg = (if (main argv w).1 = 0 then 0 else 1)
    ∧ ∀ extra : List (List Char), 2 ≤ argv.length →
        main (argv ++ extra) w = main argv w := by
  have hext : ∀ extra : List (List Char), 2 ≤ argv.length →
      main (argv ++ extra) w = main argv w := by
    intro extra h2
    have hg : (argv ++ extra).getD 1 [] = argv.getD 1 [] := by
      rw [List.getD_eq_getElem?_getD, List.getD_eq_getElem?_getD,
        List.getElem?_append_left (by omega)]
    have hl : ¬ (argv ++ extra).length < 2 := by rw [List.length_append]; omega
    have hl2 : ¬ argv.length < 2 := by omega
    simp only [main, if_neg hl, if_neg hl2, hg]
  refine ⟨?_, ?_, ?_, hext⟩
  · by_cases hlen : argv.length < 2
    · simp only [main, if_pos hlen]
      constructor
      · intro h; simp at h
      · rintro ⟨h2, _⟩; omega
    · simp only [main, if_neg hlen]
      set p := argv.getD 1 [] with hp
      cases ho : w.openTiff p with
      | none => simp [inputConverts, ho]
      | some t =>
        by_cases hk : (save_tiff_as_png (some t)
            (some (derive_output p)) (w.envFor p)).ok = true
        · simp only [inputConverts, ho, hk, if_pos hk]
          constructor
          · intro _; exact ⟨by omega, trivial⟩
          · intro _; rfl
        · simp only [inputConverts, ho, if_neg hk]
          constructor
          · intro h; simp at h
          · rintro ⟨_, h⟩; exact absurd h hk
  · by_cases hlen : argv.length < 2
    · simp [main, hlen]
    · simp only [main, if_neg hlen]
      set p := argv.getD 1 [] with hp
      cases ho : w.openTiff p with
      | none => simp
      | some t =>
        by_cases hk : (save_tiff_as_png (some t)
            (some (derive_output p)) (w.envFor p)).ok = true
        · simp [hk]
        · simp [hk]
  · by_cases hlen : argv.length < 2
    · simp [main, hlen, isFailureMsg]
    · simp only [main, if_neg hlen]
      set p := argv.getD 1 [] with hp
      cases ho : w.openTiff p with
      | none => simp [isFailureMsg]
      | some t =>
        by_cases hk : (save_tiff_as_png (some t)
            (some (derive_output p)) (w.envFor p)).ok = true
        · simp [hk, isFailureMsg]
        · simp [hk, isFailureMsg]

theorem C8_exit_code_first_input_witness :
    ((main argvCE worldCE).1 = 0 ↔
      2 ≤ argvCE.length ∧ inputConverts worldCE (argvCE.getD 1 []) = true)
    ∧ ((main argvCE worldCE).1 = 0 ∨ (main argvCE worldCE).1 = 1)
    ∧ (main argvCE worldCE).2.countP isFailureMsg =
        (if (main argvCE worldCE).1 = 0 then 0 else 1)
    ∧ (main (argvCE ++ []) worldCE = main argvCE worldCE) :=
  ⟨(C8_exit_code_first_input argvCE worldCE).1,
   (C8_exit_code_first_input argvCE worldCE).2.1,
   (C8_exit_code_first_input argvCE worldCE).2.2.1,
   (C8_exit_code_first_input argvCE worldCE).2.2.2 [] (by decide)⟩

end TiffPng
